import Mathlib

/-!
Verification of the sendu P2P file-sharing application.

The development shallowly embeds the core logic of the repository:

* the server-side one-time token store (`/store`, `/t/:id`, `/consume/:id`
  routes of server.js),
* the WebSocket signaling relay (`wss.on('message')` handler),
* the client-side chunked file sender (`sendFiles` / `readSlice`) and
  receiver (`receiveFile`),
* the client-side ICE-gathering wait (`waitForIceGatheringComplete`) and
  the token-shortening fallback (`storeTokenAndGetShortUrl` and the
  `offer-created` / `answer-created` branches of `ws.onmessage`).

JavaScript `Map` objects are embedded as functions `String → Option String`,
mutable handler state as explicit state records threaded through step
functions, thrown exceptions as `Except` errors, and timer/event timing as
explicit lists of timestamped events.
-/

namespace Sendu

/-! ## Ephemeral token store (server.js: `tokens` Map and its routes) -/

/-- The server's in-memory `tokens` map (`id -> token string`),
embedded extensionally as a lookup function. -/
abbrev TokenMap := String → Option String

/-- JS `tokens.set(id, token)`: insert or overwrite a binding. -/
def mapSet (m : TokenMap) (id tok : String) : TokenMap :=
  fun k => if k = id then some tok else m k

/-- JS `tokens.delete(id)`: remove the binding for `id`. -/
def mapDelete (m : TokenMap) (id : String) : TokenMap :=
  fun k => if k = id then none else m k

/-- `POST /store`: generate an id, record the token under it and return the
id.  Id generation (`uuidv4()`) is kept abstract as the argument `id`. -/
def store (m : TokenMap) (id tok : String) : TokenMap :=
  mapSet m id tok

/-- `GET /consume/:id`: if the id is unknown return the `{error:'expired'}`
response (`none`) and leave the map alone; otherwise delete the entry and
return the token.  The result pairs the response body with the map after
the request. -/
def consume (m : TokenMap) (id : String) : Option String × TokenMap :=
  match m id with
  | none => (none, m)
  | some tok => (some tok, mapDelete m id)

/-- Response of `GET /t/:id`: either the 404 "expired" page, or the reveal
page whose script will call `/consume/:id` for this id. -/
inductive RevealResponse where
  | notFoundPage
  | revealHtml (consumeId : String)
deriving DecidableEq

/-- `GET /t/:id`: look the id up; serve the 404 page if absent, otherwise
the reveal page embedding `fetch('/consume/' + id)`.  The route never
writes to the map, so the map after the request is returned unchanged. -/
def revealPage (m : TokenMap) (id : String) : RevealResponse × TokenMap :=
  match m id with
  | none => (.notFoundPage, m)
  | some _ => (.revealHtml id, m)

/-- The token map after serving a whole sequence of `GET /t/:id` requests. -/
def runReveals (m : TokenMap) (ids : List String) : TokenMap :=
  ids.foldl (fun acc i => (revealPage acc i).2) m

/-! ## Signaling relay (server.js: `wss.on('message')`) -/

/-- A WebSocket connection, identified abstractly. -/
abbrev Conn := Nat

/-- WebSocket `readyState` values. -/
inductive ReadyState where
  | CONNECTING
  | OPEN
  | CLOSING
  | CLOSED
deriving DecidableEq

/-- A successfully parsed client→relay message, after `JSON.parse` and
reading `data.type`.  `unknown` is any other `type` value (the `default`
branch of the `switch`). -/
inductive ClientMsg where
  | offer (offer : String)
  | answer (answer : String)
  | iceCandidate (candidate : String)
  | unknown (ty : String)
deriving DecidableEq

/-- Relay→client messages produced by the handler. -/
inductive ServerMsg where
  | offerCreated (offer : String)
  | answerCreated (answer : String)
  | iceCandidate (candidate : String)
  | errorMsg
deriving DecidableEq

/-- The body of `ws.on('message')`.  The raw message is embedded as
`Option ClientMsg`: `none` stands for a payload on which `JSON.parse`
throws (the `catch` branch), `some` for a parsed message.  Inputs are the
current client set (a JS `Set`, iterated in insertion order, hence a
duplicate-free list), the `readyState` of each connection, and the sender.
The result is the client set after the handler together with the list of
`(recipient, message)` sends it performs.  The handler never mutates the
client set and never closes a connection, which the returned set reflects.
In the `src/index.js` variant the `catch` branch answers the sender with an
`error` message; the `src/unnamed/part_001` variant differs only in
omitting that reply. -/
def handleMessage (clients : List Conn) (readyState : Conn → ReadyState)
    (sender : Conn) (raw : Option ClientMsg) :
    List Conn × List (Conn × ServerMsg) :=
  match raw with
  | none => (clients, [(sender, .errorMsg)])
  | some (.offer o) => (clients, [(sender, .offerCreated o)])
  | some (.answer a) => (clients, [(sender, .answerCreated a)])
  | some (.iceCandidate c) =>
      (clients,
        (clients.filter (fun cl => cl ≠ sender ∧ readyState cl = .OPEN)).map
          (fun cl => (cl, .iceCandidate c)))
  | some (.unknown _) => (clients, [])

/-- Helper: filtering one element out of a duplicate-free list that
contains it shortens the list by exactly one. -/
theorem length_filter_ne (l : List Conn) (a : Conn) (hnd : l.Nodup)
    (hmem : a ∈ l) :
    (l.filter (fun c => c ≠ a)).length = l.length - 1 := by
  induction l with
  | nil => cases hmem
  | cons x xs ih =>
      rcases List.mem_cons.1 hmem with rfl | hx
      · have hnotin : a ∉ xs := (List.nodup_cons.1 hnd).1
        have hall : xs.filter (fun c => c ≠ a) = xs := by
          rw [List.filter_eq_self]
          intro c hc
          simp only [decide_eq_true_eq]
          rintro rfl
          exact hnotin hc
        have hhead : (decide (a ≠ a)) = false := by simp
        simp [List.filter_cons, hhead, hall]
        intro c hc
        rintro rfl
        exact hnotin hc
      · have hne : x ≠ a := by
          rintro rfl
          exact (List.nodup_cons.1 hnd).1 hx
        have hx' : (decide (x ≠ a)) = true := by simp [hne]
        have ih' := ih (List.nodup_cons.1 hnd).2 hx
        have hpos : 0 < xs.length := List.length_pos.2 (List.ne_nil_of_mem hx)
        rw [List.filter_cons, if_pos hx']
        simp only [List.length_cons, ih']
        omega

/-! ## Chunked transfer: receiver (client.js `receiveFile`) -/

/-- The parsed `{type:'metadata', name, size, fileType}` control message
(in the code the MIME type travels in the `fileType` field). -/
structure FileMetadata where
  name : String
  size : Nat
  fileType : String
deriving DecidableEq

/-- The receiver's mutable state: the module-level variables
`receivedSize`, `receivedChunks` and `fileMetadata` of client.js.
`fileMetadata` starts out as `null` (`none`). -/
structure RecvState where
  receivedSize : Nat
  receivedChunks : List (List Nat)
  fileMetadata : Option FileMetadata
deriving DecidableEq

/-- The initial values `receivedSize = 0, receivedChunks = [],
fileMetadata = null`. -/
def initRecvState : RecvState := ⟨0, [], none⟩

/-- `new Blob(receivedChunks, { type: fileMetadata.fileType })`. -/
structure Blob where
  data : List Nat
  type : String
deriving DecidableEq

/-- A data-channel message as seen by `receiveFile`: either a string
(which the code always `JSON.parse`s into metadata) or a binary chunk. -/
inductive ChannelMsg where
  | str (md : FileMetadata)
  | bin (chunk : List Nat)
deriving DecidableEq

/-- One invocation of `receiveFile(ev)`.  A string message stores the
metadata and resets the counters.  A binary message first pushes the chunk
and adds its length (these mutations happen unconditionally), then calls
`updateProgress((receivedSize / fileMetadata.size) * 100)`: if
`fileMetadata` is still `null` this dereference throws a TypeError that
escapes the handler, embedded as `Except.error` carrying the
already-mutated state.  Otherwise, when the running total equals the
declared size, the chunks are concatenated into a `Blob` and handed to
`downloadFile(blob, fileMetadata.name)` — the completion event, returned
as `some (blob, name)`.  The state is not reset on completion. -/
def receiveFile (s : RecvState) (msg : ChannelMsg) :
    Except RecvState (RecvState × Option (Blob × String)) :=
  match msg with
  | .str md => .ok (⟨0, [], some md⟩, none)
  | .bin chunk =>
      let s1 : RecvState :=
        ⟨s.receivedSize + chunk.length, s.receivedChunks ++ [chunk],
          s.fileMetadata⟩
      match s.fileMetadata with
      | none => .error s1
      | some md =>
          if s1.receivedSize = md.size then
            .ok (s1, some (⟨s1.receivedChunks.flatten, md.fileType⟩, md.name))
          else
            .ok (s1, none)

/-- Run `receiveFile` over a message sequence, collecting every completion
event fired.  An uncaught exception aborts only that handler invocation;
the mutated state persists and later messages are still handled. -/
def runReceiver (s : RecvState) (msgs : List ChannelMsg) :
    RecvState × List (Blob × String) :=
  match msgs with
  | [] => (s, [])
  | m :: rest =>
      match receiveFile s m with
      | .ok (s2, comp) =>
          let r := runReceiver s2 rest
          (r.1, comp.toList ++ r.2)
      | .error s2 =>
          let r := runReceiver s2 rest
          (r.1, r.2)

/-! ## Chunked transfer: sender (client.js `sendFiles` / `readSlice`) -/

/-- `const chunkSize = 16384`. -/
def chunkSize : Nat := 16384

/-- A message emitted on the data channel by the sender: the string
metadata control message or a binary chunk. -/
inductive SendMsg where
  | metadata (md : FileMetadata)
  | bin (chunk : List Nat)
deriving DecidableEq

/-- The `fileReader.onload` / `readSlice` loop starting at offset `o`:
read `currentFile.slice(o, o + chunkSize)`, send the resulting chunk,
advance the offset by the chunk's byte length, and read the next slice
only if the new offset is still below the file size.  The next read is
issued from inside `onload`, i.e. only after the previous chunk was
sent. -/
def sendChunksFrom (file : List Nat) (o : Nat) : List (List Nat) :=
  let chunk := (file.drop o).take chunkSize
  if o + chunk.length < file.length then
    chunk :: sendChunksFrom file (o + chunk.length)
  else
    [chunk]
termination_by file.length - o
decreasing_by
  simp only [List.length_take, List.length_drop, chunkSize] at *
  omega

/-- `sendFiles()`: emit the single metadata control message
`{type:'metadata', name, size, fileType}` for the first selected file,
then the chunk sequence from offset 0.  Nothing follows the last chunk —
there is no end-of-stream marker. -/
def sendFiles (file : List Nat) (name fileType : String) : List SendMsg :=
  .metadata ⟨name, file.length, fileType⟩ ::
    (sendChunksFrom file 0).map .bin

/-! ## ICE gathering wait (client.js `waitForIceGatheringComplete`) -/

/-- `RTCPeerConnection.iceGatheringState` values. -/
inductive IceGatheringState where
  | new
  | gathering
  | complete
deriving DecidableEq

/-- The slice of the peer-connection object the wait reads. -/
structure PeerConn where
  iceGatheringState : IceGatheringState

/-- The first instant (milliseconds from the start of the wait) at which an
`icegatheringstatechange` event reports state `complete`, given the
time-ordered event trace. -/
def firstCompleteTime (events : List (Nat × IceGatheringState)) :
    Option Nat :=
  (events.filter (fun e => e.2 = .complete)).head?.map (·.1)

/-- `waitForIceGatheringComplete(pc, timeout)`: resolves immediately (time
0) when `pc` is absent or gathering is already complete; otherwise resolves
at the first `complete` state-change event or when the `setTimeout` fires
at `timeout` ms, whichever is earlier.  The returned value is the
resolution time of the promise under the given event trace. -/
def waitForIceGatheringComplete (pc : Option PeerConn)
    (events : List (Nat × IceGatheringState)) (timeout : Nat) : Nat :=
  match pc with
  | none => 0
  | some p =>
      if p.iceGatheringState = .complete then 0
      else
        match firstCompleteTime events with
        | none => timeout
        | some t => min t timeout

/-! ## Token shortening fallback (client.js `ws.onmessage` / `storeTokenAndGetShortUrl`) -/

/-- Outcome of the `fetch('/store', ...)` call: a 200 response carrying
`{id}`, a non-ok HTTP response, or a rejected fetch. -/
inductive StoreOutcome where
  | ok (id : String)
  | httpError
  | networkError
deriving DecidableEq

/-- `storeTokenAndGetShortUrl(tokenString)`: on a non-ok response it throws
(`none`); otherwise it returns `location.origin + '/t/' + id`. -/
def storeTokenAndGetShortUrl (origin : String) (r : StoreOutcome) :
    Option String :=
  match r with
  | .ok id => some (origin ++ "/t/" ++ id)
  | .httpError => none
  | .networkError => none

/-- The observable UI outcome of an `offer-created` / `answer-created`
branch: the value placed in the token input field, the text and pixel size
passed to `generateQRCode`, and the status style shown. -/
structure UIState where
  tokenValue : String
  qrText : String
  qrSize : Nat
  statusKind : String
deriving DecidableEq

/-- The `offer-created` branch of `ws.onmessage`: try to shorten the
serialized offer via the Token Store; on success show the short URL with a
128-px QR code, on failure fall back to the raw offer token with a 256-px
QR code and an error status. -/
def handleOfferCreated (origin offerToken : String) (r : StoreOutcome) :
    UIState :=
  match storeTokenAndGetShortUrl origin r with
  | some short => ⟨short, short, 128, "info"⟩
  | none => ⟨offerToken, offerToken, 256, "error"⟩

/-- The `answer-created` branch of `ws.onmessage`, identical except for the
success status style. -/
def handleAnswerCreated (origin answerToken : String) (r : StoreOutcome) :
    UIState :=
  match storeTokenAndGetShortUrl origin r with
  | some short => ⟨short, short, 128, "success"⟩
  | none => ⟨answerToken, answerToken, 256, "error"⟩

/-! ## Helper lemmas -/

/-- Helper: while the running total stays strictly below the declared size,
no completion fires and the chunks simply accumulate. -/
theorem runReceiver_under (md : FileMetadata) (cs : List (List Nat)) :
    ∀ (n : Nat) (bufs : List (List Nat)),
      n + (cs.map List.length).sum < md.size →
      runReceiver ⟨n, bufs, some md⟩ (cs.map .bin) =
        (⟨n + (cs.map List.length).sum, bufs ++ cs, some md⟩, []) := by
  induction cs with
  | nil =>
      intro n bufs _
      simp [runReceiver]
  | cons c rest ih =>
      intro n bufs h
      have hsum : c.length + (rest.map List.length).sum =
          ((c :: rest).map List.length).sum := by simp
      have hne : ¬ (n + c.length = md.size) := by omega
      have ih' := ih (n + c.length) (bufs ++ [c]) (by omega)
      simp only [List.map_cons, runReceiver, receiveFile, hne, if_false,
        if_neg hne, ih', Option.toList]
      simp only [List.sum_cons, List.append_nil, List.append_assoc,
        List.singleton_append, Nat.add_assoc]

/-- Helper: a nonempty run of positive-length chunks whose lengths close
the gap to the declared size exactly fires exactly one completion, at the
last chunk, carrying the concatenation of all accumulated chunks. -/
theorem runReceiver_exact (md : FileMetadata) (cs : List (List Nat)) :
    ∀ (n : Nat) (bufs : List (List Nat)),
      cs ≠ [] →
      (∀ c ∈ cs, 0 < c.length) →
      n + (cs.map List.length).sum = md.size →
      (runReceiver ⟨n, bufs, some md⟩ (cs.map .bin)).2 =
        [(⟨(bufs ++ cs).flatten, md.fileType⟩, md.name)] := by
  induction cs with
  | nil =>
      intro n bufs hne _ _
      exact absurd rfl hne
  | cons c rest ih =>
      intro n bufs _ hpos hsum
      by_cases hrest : rest = []
      · subst hrest
        have hfin : n + c.length = md.size := by
          simpa using hsum
        simp [runReceiver, receiveFile, hfin]
      · obtain ⟨r, rs, hr⟩ := List.exists_cons_of_ne_nil hrest
        have hrpos : 0 < r.length := hpos r (by simp [hr])
        have hrsum : 0 < (rest.map List.length).sum := by
          rw [hr]
          simp only [List.map_cons, List.sum_cons]
          omega
        have hlt : ¬ (n + c.length = md.size) := by
          simp only [List.map_cons, List.sum_cons] at hsum
          omega
        have ih' := ih (n + c.length) (bufs ++ [c]) hrest
          (fun d hd => hpos d (List.mem_cons_of_mem _ hd))
          (by simp only [List.map_cons, List.sum_cons] at hsum; omega)
        simp only [List.map_cons, runReceiver, receiveFile, if_neg hlt,
          Option.toList]
        simpa [List.append_assoc] using ih'

/-- Unfolding lemma for `sendChunksFrom`, with the chunk length rewritten
to `min chunkSize (file.length - o)`. -/
theorem sendChunksFrom_eq (file : List Nat) (o : Nat) :
    sendChunksFrom file o =
      if o + min chunkSize (file.length - o) < file.length then
        (file.drop o).take chunkSize ::
          sendChunksFrom file (o + min chunkSize (file.length - o))
      else
        [(file.drop o).take chunkSize] := by
  rw [sendChunksFrom]
  simp [List.length_take, List.length_drop]

/-- Helper: the chunks sent from offset `o` concatenate back to exactly the
file contents from offset `o` on. -/
theorem sendChunksFrom_flatten_aux (file : List Nat) :
    ∀ fuel o, file.length - o ≤ fuel →
      (sendChunksFrom file o).flatten = file.drop o := by
  intro fuel
  induction fuel with
  | zero =>
      intro o h
      have hle : file.length ≤ o := by omega
      have h0 : file.length - o = 0 := by omega
      have hdrop : file.drop o = [] := List.drop_eq_nil_of_le hle
      rw [sendChunksFrom_eq, h0, hdrop]
      rw [if_neg (by simp; omega)]
      simp
  | succ k ih =>
      intro o h
      rw [sendChunksFrom_eq]
      by_cases hc : o + min chunkSize (file.length - o) < file.length
      · rw [if_pos hc]
        have hcs : chunkSize = 16384 := rfl
        have hmineq : min chunkSize (file.length - o) = chunkSize := by
          rw [hcs] at hc ⊢
          omega
        have ih' := ih (o + min chunkSize (file.length - o))
          (by rw [hmineq, hcs] at hc ⊢; omega)
        rw [List.flatten_cons, ih', hmineq, ← List.drop_drop,
          List.take_append_drop]
      · rw [if_neg hc]
        have hlen : (file.drop o).length ≤ chunkSize := by
          simp only [List.length_drop]
          have hcs : chunkSize = 16384 := rfl
          rw [hcs] at hc ⊢
          omega
        simp [List.take_of_length_le hlen]

/-- The chunks sent from offset 0 concatenate back to the whole file. -/
theorem sendChunksFrom_flatten (file : List Nat) :
    (sendChunksFrom file 0).flatten = file := by
  simpa using sendChunksFrom_flatten_aux file (file.length) 0 (by omega)

/-- Helper: every chunk the sender emits has length at most `chunkSize`. -/
theorem sendChunksFrom_le_aux (file : List Nat) :
    ∀ fuel o, file.length - o ≤ fuel →
      ∀ c ∈ sendChunksFrom file o, c.length ≤ chunkSize := by
  intro fuel
  induction fuel with
  | zero =>
      intro o h c hc
      rw [sendChunksFrom_eq] at hc
      have h0 : file.length - o = 0 := by omega
      rw [h0] at hc
      rw [if_neg (by simp; omega)] at hc
      simp only [List.mem_singleton] at hc
      subst hc
      exact List.length_take_le _ _
  | succ k ih =>
      intro o h c hc
      rw [sendChunksFrom_eq] at hc
      by_cases hcond : o + min chunkSize (file.length - o) < file.length
      · rw [if_pos hcond] at hc
        rcases List.mem_cons.1 hc with rfl | htail
        · exact List.length_take_le _ _
        · have hcs : chunkSize = 16384 := rfl
          refine ih (o + min chunkSize (file.length - o)) ?_ c htail
          rw [hcs] at hcond ⊢
          omega
      · rw [if_neg hcond] at hc
        simp only [List.mem_singleton] at hc
        subst hc
        exact List.length_take_le _ _

/-- Helper: the chunk-length sequence for a 40000-byte file is
`[16384, 16384, 7232]`. -/
theorem sendChunksFrom_lengths_40000 (file : List Nat)
    (h : file.length = 40000) :
    (sendChunksFrom file 0).map List.length = [16384, 16384, 7232] := by
  have hcs : chunkSize = 16384 := rfl
  have e0 := sendChunksFrom_eq file 0
  have e1 := sendChunksFrom_eq file 16384
  have e2 := sendChunksFrom_eq file 32768
  rw [h, hcs] at e0 e1 e2
  norm_num at e0 e1 e2
  rw [e0, e1, e2]
  simp [List.length_take, List.length_drop, h, hcs]

/-! ## Theorems: token store -/

/-- C1: a stored token is returned by the first consume of its id, the entry
is deleted by that consume, and a second consume of the same id returns the
NotFound (`{error:'expired'}`) result. -/
theorem consume_is_one_time (m : TokenMap) (id tok : String) :
    (consume (store m id tok) id).1 = some tok ∧
    ((consume (store m id tok) id).2) id = none ∧
    (consume ((consume (store m id tok) id).2) id).1 = none := by
  simp [consume, store, mapSet, mapDelete]

/-- C7: serving the reveal page `GET /t/:id` leaves the token map unchanged —
any sequence of such requests leaves every binding exactly as it was — and
when the id is stored the served page is the reveal page that targets the
`/consume/:id` endpoint for that same id. -/
theorem revealPage_preserves_tokens (m : TokenMap) (ids : List String) :
    runReveals m ids = m ∧
    (∀ id, (revealPage m id).2 = m) ∧
    (∀ id tok, m id = some tok → (revealPage m id).1 = .revealHtml id) := by
  refine ⟨?_, ?_, ?_⟩
  · induction ids generalizing m with
    | nil => rfl
    | cons i rest ih =>
        have hstep : (revealPage m i).2 = m := by
          unfold revealPage
          cases m i <;> simp
        simpa [runReveals, hstep] using ih m
  · intro id
    unfold revealPage
    cases m id <;> simp
  · intro id tok h
    simp [revealPage, h]

/-! ## Theorems: signaling relay -/

/-- C6: a malformed relay message (one `JSON.parse` rejects) is caught: the
handler terminates normally, the client set — hence the sender's membership
in it — is unchanged, nothing is sent to any other connection (the
`src/index.js` variant answers only the sender with an `error` message),
and no connection is closed.  The same holds for a parsed message of
unknown type, which only logs. -/
theorem malformed_message_keeps_connection (clients : List Conn)
    (readyState : Conn → ReadyState) (sender : Conn) :
    (∀ raw, (handleMessage clients readyState sender raw).1 = clients) ∧
    handleMessage clients readyState sender none =
      (clients, [(sender, .errorMsg)]) ∧
    (∀ ty, handleMessage clients readyState sender (some (.unknown ty)) =
      (clients, [])) := by
  refine ⟨?_, rfl, fun _ => rfl⟩
  intro raw
  match raw with
  | none => rfl
  | some (.offer o) => rfl
  | some (.answer a) => rfl
  | some (.iceCandidate c) => rfl
  | some (.unknown ty) => rfl

/-- C4: when all `K` registered connections are open, an `ice-candidate`
from one of them is delivered to exactly `K − 1` connections: every
connection other than the sender receives the candidate, and the sender is
never a recipient. -/
theorem iceCandidate_broadcast_count (clients : List Conn)
    (readyState : Conn → ReadyState) (sender : Conn) (cand : String)
    (hmem : sender ∈ clients) (hnd : clients.Nodup)
    (hopen : ∀ c ∈ clients, readyState c = .OPEN) :
    ((handleMessage clients readyState sender
        (some (.iceCandidate cand))).2).length = clients.length - 1 ∧
    (∀ c ∈ clients, c ≠ sender →
      (c, ServerMsg.iceCandidate cand) ∈
        (handleMessage clients readyState sender
          (some (.iceCandidate cand))).2) ∧
    (∀ msg : ServerMsg, (sender, msg) ∉
        (handleMessage clients readyState sender
          (some (.iceCandidate cand))).2) := by
  have hfilter :
      clients.filter (fun cl => cl ≠ sender ∧ readyState cl = .OPEN) =
        clients.filter (fun cl => cl ≠ sender) := by
    apply List.filter_congr
    intro c hc
    simp [hopen c hc]
  refine ⟨?_, ?_, ?_⟩
  · rw [handleMessage]
    simp only [List.length_map, hfilter]
    exact length_filter_ne clients sender hnd hmem
  · intro c hc hne
    rw [handleMessage]
    simp only [List.mem_map]
    exact ⟨c, by simp [List.mem_filter, hc, hne, hopen c hc], rfl⟩
  · intro msg hmemsg
    rw [handleMessage] at hmemsg
    simp only [List.mem_map, List.mem_filter] at hmemsg
    obtain ⟨c, ⟨_, hprop⟩, heq⟩ := hmemsg
    have : c = sender := congrArg Prod.fst heq
    simp [this] at hprop

/-- Witness for `iceCandidate_broadcast_count` at three open connections. -/
theorem iceCandidate_broadcast_count_witness :
    ((handleMessage [0, 1, 2] (fun _ => .OPEN) 0
        (some (.iceCandidate "c"))).2).length = 2 := by
  exact (iceCandidate_broadcast_count [0, 1, 2] (fun _ => .OPEN) 0 "c"
    (by decide) (by decide) (by intro c _; rfl)).1

/-- C10: an `ice-candidate` is relayed to exactly the connections that are
in the client set, differ from the sender and have `readyState` OPEN; in
particular a registered connection that is not open is silently skipped and
receives nothing. -/
theorem iceCandidate_only_open_receive (clients : List Conn)
    (readyState : Conn → ReadyState) (sender : Conn) (cand : String)
    (c : Conn) :
    ((c, ServerMsg.iceCandidate cand) ∈
        (handleMessage clients readyState sender
          (some (.iceCandidate cand))).2) ↔
      (c ∈ clients ∧ c ≠ sender ∧ readyState c = .OPEN) := by
  rw [handleMessage]
  simp only [List.mem_map, List.mem_filter, Prod.mk.injEq]
  constructor
  · rintro ⟨x, hx, hx1, -⟩
    rw [← hx1]
    simpa using hx
  · intro h
    exact ⟨c, by simpa using h, rfl, trivial⟩

/-- Witness for `revealPage_preserves_tokens`: with one stored token, the
reveal page for its id is served and the map is untouched. -/
theorem revealPage_preserves_tokens_witness :
    (revealPage (mapSet (fun _ => none) "abc" "OFFER_SDP_X") "abc").1 =
      .revealHtml "abc" := by
  exact (revealPage_preserves_tokens
    (mapSet (fun _ => none) "abc" "OFFER_SDP_X") []).2.2 "abc" "OFFER_SDP_X"
    (by simp [mapSet])

/-- Witness for `iceCandidate_only_open_receive`: a closing connection that
is still registered receives nothing. -/
theorem iceCandidate_only_open_receive_witness :
    ¬ ((2, ServerMsg.iceCandidate "c") ∈
        (handleMessage [0, 1, 2]
          (fun c => if c = 2 then .CLOSING else .OPEN) 0
          (some (.iceCandidate "c"))).2) := by
  intro hmem
  have h := (iceCandidate_only_open_receive [0, 1, 2]
    (fun c => if c = 2 then .CLOSING else .OPEN) 0 "c" 2).1 hmem
  simp at h

/-! ## Theorems: chunked transfer receiver -/

/-- C2 (amended): for a metadata message declaring size `S` followed by a
nonempty sequence of positive-length binary chunks whose lengths sum to
`S`, the receiver fires exactly one completion event, handing the
concatenation of the chunks (with the declared MIME type and name) to the
download collaborator; the reconstructed byte length equals `S`, and no
completion fires while only a proper prefix of the chunks has arrived. -/
theorem receiver_fires_once (md : FileMetadata) (chunks : List (List Nat))
    (hne : chunks ≠ []) (hpos : ∀ c ∈ chunks, 0 < c.length)
    (hsum : (chunks.map List.length).sum = md.size) :
    (runReceiver initRecvState (.str md :: chunks.map .bin)).2 =
      [(⟨chunks.flatten, md.fileType⟩, md.name)] ∧
    chunks.flatten.length = md.size ∧
    (∀ k, k < chunks.length →
      (runReceiver initRecvState
        (.str md :: (chunks.take k).map .bin)).2 = []) := by
  refine ⟨?_, ?_, ?_⟩
  · have h := runReceiver_exact md chunks 0 [] hne hpos (by omega)
    simpa [runReceiver, receiveFile, initRecvState] using h
  · rw [List.length_flatten]
    exact hsum
  · intro k hk
    have hsplit : ((chunks.take k).map List.length).sum
        + ((chunks.drop k).map List.length).sum = md.size := by
      rw [← List.sum_append, ← List.map_append, List.take_append_drop]
      exact hsum
    have hdropne : chunks.drop k ≠ [] := by
      intro hnil
      have hlen := congrArg List.length hnil
      simp only [List.length_drop, List.length_nil] at hlen
      omega
    obtain ⟨d, ds, hd⟩ := List.exists_cons_of_ne_nil hdropne
    have hdmem : d ∈ chunks :=
      List.drop_subset k chunks (by rw [hd]; exact List.mem_cons_self d ds)
    have hdpos : 0 < d.length := hpos d hdmem
    have hlt : ((chunks.take k).map List.length).sum < md.size := by
      rw [hd] at hsplit
      simp only [List.map_cons, List.sum_cons] at hsplit
      omega
    have h := runReceiver_under md (chunks.take k) 0 [] (by omega)
    have hstep : (runReceiver initRecvState
          (ChannelMsg.str md :: (chunks.take k).map .bin)).2 =
        (runReceiver ⟨0, [], some md⟩ ((chunks.take k).map .bin)).2 := rfl
    rw [hstep, h]

/-- Witness for `receiver_fires_once`: a 3-byte file received as chunks of
lengths 2 and 1 fires exactly one completion carrying the 3 bytes. -/
theorem receiver_fires_once_witness :
    (runReceiver initRecvState
      [.str ⟨"f", 3, "t"⟩, .bin [1, 2], .bin [3]]).2 =
      [(⟨[1, 2, 3], "t"⟩, "f")] := by
  have h := receiver_fires_once ⟨"f", 3, "t"⟩ [[1, 2], [3]]
    (by decide) (by decide) (by decide)
  simpa using h.1

/-- C2 as literally stated is false on the code: the chunk lengths `[5, 0]`
sum to the declared size 5, yet the completion event fires twice, because
the completion check runs on every binary message and the counters are not
reset after completion. -/
theorem receiver_double_completion :
    (([[10, 11, 12, 13, 14], ([] : List Nat)].map List.length).sum = 5) ∧
    ((runReceiver initRecvState
        [.str ⟨"f", 5, "t"⟩, .bin [10, 11, 12, 13, 14], .bin []]).2).length
      = 2 := by
  exact ⟨rfl, rfl⟩

/-- C5: a binary message arriving before any metadata message makes
`receiveFile` throw — `updateProgress` dereferences `fileMetadata.size`
while `fileMetadata` is still `null` — so a TypeError escapes the handler
(the `Except.error` result), after the chunk was already buffered and the
running total incremented; no completion event fires. -/
theorem binary_before_metadata_throws :
    receiveFile initRecvState (.bin [0, 1, 2]) =
      .error ⟨3, [[0, 1, 2]], none⟩ := rfl

/-! ## Theorems: chunked transfer sender -/

/-- C3: the sender emits exactly one metadata control message — carrying
the file's name, its size `S` and its MIME type — followed by binary
chunks and nothing else (no end-of-stream marker); every chunk has length
at most 16384; the chunks are the file's bytes in order from offset 0, so
the chunk lengths total `S`; and for a 40000-byte file the chunk lengths
are `[16384, 16384, 7232]`. -/
theorem sender_chunking (file : List Nat) (name fileType : String) :
    sendFiles file name fileType =
      .metadata ⟨name, file.length, fileType⟩ ::
        (sendChunksFrom file 0).map .bin ∧
    (sendChunksFrom file 0).flatten = file ∧
    ((sendChunksFrom file 0).map List.length).sum = file.length ∧
    (∀ c ∈ sendChunksFrom file 0, c.length ≤ chunkSize) ∧
    (file.length = 40000 →
      (sendChunksFrom file 0).map List.length = [16384, 16384, 7232]) := by
  refine ⟨rfl, sendChunksFrom_flatten file, ?_, ?_, ?_⟩
  · rw [← List.length_flatten, sendChunksFrom_flatten]
  · exact sendChunksFrom_le_aux file file.length 0 (by omega)
  · exact sendChunksFrom_lengths_40000 file

/-- Witness for `sender_chunking`: the 40000-byte scenario. -/
theorem sender_chunking_witness :
    (sendChunksFrom (List.replicate 40000 0) 0).map List.length =
      [16384, 16384, 7232] := by
  exact (sender_chunking (List.replicate 40000 0) "f" "bin").2.2.2.2
    (by rw [List.length_replicate])

/-! ## Theorems: ICE gathering wait -/

/-- C8: the ICE-gathering wait always resolves within the 3000 ms bound:
immediately when the connection object is absent or gathering is already
complete, at the first `complete` event when that precedes the timeout,
and at 3000 ms otherwise — never later, hence never indefinitely. -/
theorem waitForIce_terminates (pc : Option PeerConn)
    (events : List (Nat × IceGatheringState)) :
    waitForIceGatheringComplete pc events 3000 ≤ 3000 ∧
    (pc = none → waitForIceGatheringComplete pc events 3000 = 0) ∧
    (∀ p, pc = some p → p.iceGatheringState = .complete →
      waitForIceGatheringComplete pc events 3000 = 0) ∧
    (∀ p t, pc = some p → p.iceGatheringState ≠ .complete →
      firstCompleteTime events = some t →
      waitForIceGatheringComplete pc events 3000 = min t 3000) ∧
    (∀ p, pc = some p → p.iceGatheringState ≠ .complete →
      firstCompleteTime events = none →
      waitForIceGatheringComplete pc events 3000 = 3000) := by
  refine ⟨?_, ?_, ?_, ?_, ?_⟩
  · rcases pc with _ | p
    · simp [waitForIceGatheringComplete]
    · simp only [waitForIceGatheringComplete]
      by_cases h : p.iceGatheringState = .complete
      · simp [h]
      · rw [if_neg h]
        rcases hfe : firstCompleteTime events with _ | t
        · exact Nat.le_refl 3000
        · exact Nat.min_le_right t 3000
  · rintro rfl
    rfl
  · rintro p rfl h
    simp [waitForIceGatheringComplete, h]
  · rintro p t rfl h hfe
    simp [waitForIceGatheringComplete, h, hfe]
  · rintro p rfl h hfe
    simp [waitForIceGatheringComplete, h, hfe]

/-- Witness for `waitForIce_terminates`: an absent connection resolves
immediately, and a stalled gathering with no events resolves at 3000 ms. -/
theorem waitForIce_terminates_witness :
    waitForIceGatheringComplete none [] 3000 = 0 ∧
    waitForIceGatheringComplete (some ⟨.gathering⟩) [] 3000 = 3000 := by
  constructor
  · exact (waitForIce_terminates none []).2.1 rfl
  · exact (waitForIce_terminates (some ⟨.gathering⟩) []).2.2.2.2
      ⟨.gathering⟩ rfl (by decide) rfl

/-! ## Theorems: token shortening fallback -/

/-- C9: if storing the offer or answer token fails — the `fetch('/store')`
call rejects or returns a non-ok response — the client does not block the
handshake: it places the raw token in the token field and renders it as a
larger QR code (256 px rather than the 128 px used for short URLs). -/
theorem store_failure_falls_back (origin tok : String) (r : StoreOutcome)
    (hfail : ∀ id, r ≠ .ok id) :
    handleOfferCreated origin tok r = ⟨tok, tok, 256, "error"⟩ ∧
    handleAnswerCreated origin tok r = ⟨tok, tok, 256, "error"⟩ ∧
    (128 : Nat) < 256 := by
  have hs : storeTokenAndGetShortUrl origin r = none := by
    cases r with
    | ok id => exact absurd rfl (hfail id)
    | httpError => rfl
    | networkError => rfl
  exact ⟨by simp [handleOfferCreated, hs], by simp [handleAnswerCreated, hs],
    by omega⟩

/-- Witness for `store_failure_falls_back` at a non-ok HTTP response. -/
theorem store_failure_falls_back_witness :
    handleOfferCreated "https://h" "RAWSDP" .httpError =
      ⟨"RAWSDP", "RAWSDP", 256, "error"⟩ := by
  exact (store_failure_falls_back "https://h" "RAWSDP" .httpError
    (fun id h => StoreOutcome.noConfusion h)).1

end Sendu
